import Mathlib

/-!
Verification development for the FFAB frame-archive container
(repository FlexFrameAnimation, directory ffa-bundle).

The container logic of the repository lives in four Python files:
ffab_encoder.py (primary writer), tools/ffab_encoder.py (a second writer
variant), ffab_decoder.py (reader) and ffab_info.py (inspector).  This file
embeds the byte-level logic of those sources shallowly:

* a file is a List Nat of byte values;
* Python struct.pack / struct.unpack with big-endian fields becomes
  explicit byte-list construction and folding (beBytes / beNat), with
  arithmetic carried out on Nat and masked by mod 256 exactly where the
  source masks (struct.pack raises for out-of-range fields; theorems about
  packed values therefore carry in-range hypotheses);
* Python f.read(n) at a seek position becomes (file.drop pos).take n,
  which silently yields fewer bytes near end of file, exactly as in Python;
  struct.unpack on such a short buffer raises struct.error, embedded as
  the error value structError;
* Python exceptions (ValueError with the various messages, struct.error)
  become an explicit error type FfabError, and each fallible source
  function returns Except FfabError;
* the external astcenc codec, image I/O and all filesystem / CLI plumbing
  are outside the modelled core: the writers are therefore embedded as
  functions of the list of compressed blobs the codec produced (one blob
  per frame, a full .astc byte stream), plus the shared width, height and
  format string that the surrounding code derives from the images.

Python string operations used by the sources (str.split with a one
character separator, int(), str.lower()) are embedded as structurally
recursive functions over the character list of the string, so that every
definition evaluates by kernel reduction.
-/

/-- Big-endian byte serialization: the w bytes of n (mod 256 ^ w), most
significant first.  Embeds the fixed-width big-endian fields of
struct.pack formats such as H, I, Q. -/
def beBytes : Nat → Nat → List Nat
  | 0, _ => []
  | w + 1, n => beBytes w (n / 256) ++ [n % 256]

/-- struct.pack field H (big-endian u16). -/
def u16be (n : Nat) : List Nat := beBytes 2 n

/-- struct.pack field I (big-endian u32). -/
def u32be (n : Nat) : List Nat := beBytes 4 n

/-- struct.pack field Q (big-endian u64). -/
def u64be (n : Nat) : List Nat := beBytes 8 n

/-- Big-endian interpretation of a byte list: embeds struct.unpack of one
fixed-width big-endian field. -/
def beNat (bs : List Nat) : Nat :=
  bs.foldl (fun acc b => acc * 256 + b) 0

/-- Python str.lower for one character (ASCII, the only case the sources
meet). -/
def pyLowerChar (c : Char) : Char :=
  if 'A' ≤ c ∧ c ≤ 'Z' then Char.ofNat (c.toNat + 32) else c

/-- Python str.lower. -/
def pyLower (s : String) : String :=
  ⟨s.data.map pyLowerChar⟩

/-- Python s.split with separator character x, over the character list of
the string (the separator used by generate_astc_header). -/
def splitOnCharX : List Char → List (List Char)
  | [] => [[]]
  | c :: rest =>
    if c = 'x' then [] :: splitOnCharX rest
    else
      match splitOnCharX rest with
      | g :: gs => (c :: g) :: gs
      | [] => [[c]]

/-- Python int() on a string of decimal digits (the only inputs the
sources pass to it). -/
def digitsToNat (s : List Char) : Nat :=
  s.foldl (fun acc c => acc * 10 + (c.toNat - 48)) 0

/-- The error outcomes of the embedded operations.  The sources signal all
of these with Python exceptions: structError stands for struct.error on a
short buffer, invalidMagic and unsupportedVersion for the two ValueError
messages of read_ffab_header, unknownFormatCode for the ValueError of
decode_ffab_file on a format code missing from ASTC_CODE_TO_FORMAT,
emptyImageList for the ValueError on an empty image list,
invalidAstcFormat for the ValueError of get_astc_format_code, and
preambleMismatch for the ValueError raised by create_ffab_file_v1 when a
compressed blob does not begin with the expected astc header. -/
inductive FfabError where
  | structError : FfabError
  | invalidMagic : FfabError
  | unsupportedVersion : FfabError
  | unknownFormatCode : Nat → FfabError
  | emptyImageList : FfabError
  | invalidAstcFormat : FfabError
  | preambleMismatch : FfabError
deriving DecidableEq

/-- Decidable success test for the embedded fallible operations. -/
def exceptIsOk {α : Type} : Except FfabError α → Bool
  | .ok _ => true
  | .error _ => false

/-- Equality of embedded operation results is decidable whenever the
payload type has decidable equality. -/
instance exceptDecEq {ε α : Type} [DecidableEq ε] [DecidableEq α] :
    DecidableEq (Except ε α) := fun a b =>
  match a, b with
  | .ok x, .ok y =>
    if h : x = y then .isTrue (by rw [h])
    else .isFalse (fun hc => h (Except.ok.inj hc))
  | .error x, .error y =>
    if h : x = y then .isTrue (by rw [h])
    else .isFalse (fun hc => h (Except.error.inj hc))
  | .ok _, .error _ => .isFalse (fun hc => Except.noConfusion hc)
  | .error _, .ok _ => .isFalse (fun hc => Except.noConfusion hc)

/-- FFAB_MAGIC, declared identically in ffab_encoder.py, ffab_decoder.py,
tools/ffab_encoder.py and ffab_info.py. -/
def FFAB_MAGIC : Nat := 0xFFAB

/-- FFAB_VERSION_0x0001, the single supported version. -/
def FFAB_VERSION_0x0001 : Nat := 0x0001

/-- ASTC_FORMAT_CODES, declared identically (same pairs, same order) in
ffab_encoder.py, ffab_decoder.py, tools/ffab_encoder.py and
ffab_info.py. -/
def ASTC_FORMAT_CODES : List (String × Nat) :=
  [("4x4", 0x0001), ("5x4", 0x0002), ("5x5", 0x0003), ("6x5", 0x0004),
   ("6x6", 0x0005), ("8x5", 0x0006), ("8x6", 0x0007), ("8x8", 0x0008),
   ("10x5", 0x0009), ("10x6", 0x000A), ("10x8", 0x000B), ("10x10", 0x000C),
   ("12x10", 0x000D), ("12x12", 0x000E)]

/-- ASTC_CODE_TO_FORMAT of ffab_decoder.py / ffab_info.py: the dict
comprehension inverting ASTC_FORMAT_CODES, queried by key.  The codes of
the table are pairwise distinct, so first-match lookup agrees with the
Python dict built by overwriting. -/
def ASTC_CODE_TO_FORMAT (code : Nat) : Option String :=
  (ASTC_FORMAT_CODES.map (fun p => (p.2, p.1))).lookup code

namespace FfabEncoder

/-- get_astc_format_code of ffab_encoder.py (lines 72-78): lower-case the
name, then look it up in ASTC_FORMAT_CODES; ValueError on a miss. -/
def get_astc_format_code (format_name : String) : Except FfabError Nat :=
  match ASTC_FORMAT_CODES.lookup (pyLower format_name) with
  | some code => .ok code
  | none => .error .invalidAstcFormat

/-- generate_astc_header of ffab_encoder.py (lines 202-238): the fixed
16-byte .astc preamble built by struct.pack from the block tile sizes
split out of the format string and the 24-bit little-endian image
dimensions.  The source unpacks exactly two split parts (a ValueError
otherwise) and packs each with format B (range checked by struct); the
enumeration formats always satisfy both, and the fallback branch / mod 256
below are never reached for them. -/
def generate_astc_header (width height : Nat) (astc_format : String) : List Nat :=
  match (splitOnCharX astc_format.data).map digitsToNat with
  | [block_x, block_y] =>
    [0x13, 0xAB, 0xA1, 0x5C,
     block_x % 256, block_y % 256, 1,
     width % 256, width / 256 % 256, width / 65536 % 256,
     height % 256, height / 256 % 256, height / 65536 % 256,
     1, 0, 0]
  | _ => []

/-- The per-image loop of create_ffab_file_v1 (ffab_encoder.py lines
286-310), abstracted over the compressed blobs the external codec
returned: compare the first 16 bytes of each blob against the expected
astc header (ValueError on mismatch), strip them, record the index entry
at the running offset, and keep the stripped data, advancing the offset
by its length. -/
def processImages (blobs : List (List Nat)) (astcHeader : List Nat)
    (currentOffset : Nat) :
    Except FfabError (List (Nat × Nat) × List (List Nat)) :=
  match blobs with
  | [] => .ok ([], [])
  | b :: rest =>
    if b.take 16 = astcHeader then
      let compressedData := b.drop 16
      match processImages rest astcHeader (currentOffset + compressedData.length) with
      | .ok (entries, datas) =>
        .ok ((currentOffset, compressedData.length) :: entries,
             compressedData :: datas)
      | .error e => .error e
    else .error .preambleMismatch

/-- One 12-byte index record: struct.pack of big-endian (u64 offset,
u32 length). -/
def entryBytes (e : Nat × Nat) : List Nat := u64be e.1 ++ u32be e.2

/-- create_ffab_file_v1 of ffab_encoder.py (lines 241-330), as a function
from the codec-produced blobs plus the shared dimensions and format to the
bytes written to the output file.  The empty-list ValueError, the format
lookup, the header and meta packing, the data start offset 4 + 8 + 12 *
count, the per-image check-strip-index loop and the final concatenation
header ++ meta ++ index table ++ data all mirror the source; image
loading, dimension consistency of the pixel data and the codec invocation
are external to the modelled core. -/
def create_ffab_file_v1 (blobs : List (List Nat)) (width height : Nat)
    (astc_format : String) : Except FfabError (List Nat) :=
  if blobs = [] then .error .emptyImageList
  else
    match get_astc_format_code astc_format with
    | .error e => .error e
    | .ok astc_format_code =>
      let image_count := blobs.length
      let header := u16be FFAB_MAGIC ++ u16be FFAB_VERSION_0x0001
      let meta := u16be image_count ++ (u16be width ++ (u16be height ++ u16be astc_format_code))
      let data_start_offset := 4 + 8 + image_count * 12
      let astcHeader := generate_astc_header width height astc_format
      match processImages blobs astcHeader data_start_offset with
      | .error e => .error e
      | .ok (entries, datas) =>
        .ok (header ++ (meta ++ ((entries.map entryBytes).flatten ++ datas.flatten)))

end FfabEncoder

namespace FfabToolsEncoder

/-- The per-image loop of create_ffab_file_v1 in tools/ffab_encoder.py
(lines 243-257): this writer variant records and stores each compressed
blob whole; it neither checks nor strips the 16-byte astc preamble. -/
def processImages (blobs : List (List Nat)) (currentOffset : Nat) :
    List (Nat × Nat) × List (List Nat) :=
  match blobs with
  | [] => ([], [])
  | b :: rest =>
    let (entries, datas) := processImages rest (currentOffset + b.length)
    ((currentOffset, b.length) :: entries, b :: datas)

/-- create_ffab_file_v1 of tools/ffab_encoder.py (lines 207-286):
identical layout computation to the primary writer, but the stored
payload is the full codec output including its 16-byte preamble. -/
def create_ffab_file_v1 (blobs : List (List Nat)) (width height : Nat)
    (astc_format : String) : Except FfabError (List Nat) :=
  if blobs = [] then .error .emptyImageList
  else
    match FfabEncoder.get_astc_format_code astc_format with
    | .error e => .error e
    | .ok astc_format_code =>
      let image_count := blobs.length
      let header := u16be FFAB_MAGIC ++ u16be FFAB_VERSION_0x0001
      let meta := u16be image_count ++ (u16be width ++ (u16be height ++ u16be astc_format_code))
      let data_start_offset := 4 + 8 + image_count * 12
      let (entries, datas) := processImages blobs data_start_offset
      .ok (header ++ (meta ++ ((entries.map FfabEncoder.entryBytes).flatten ++ datas.flatten)))

end FfabToolsEncoder

namespace FfabDecoder

/-- generate_astc_header of ffab_decoder.py (lines 56-92); the source text
is identical to the copy in ffab_encoder.py. -/
def generate_astc_header (width height : Nat) (astc_format : String) : List Nat :=
  match (splitOnCharX astc_format.data).map digitsToNat with
  | [block_x, block_y] =>
    [0x13, 0xAB, 0xA1, 0x5C,
     block_x % 256, block_y % 256, 1,
     width % 256, width / 256 % 256, width / 65536 % 256,
     height % 256, height / 256 % 256, height / 65536 % 256,
     1, 0, 0]
  | _ => []

/-- read_ffab_header of ffab_decoder.py (lines 160-186): read the first 4
bytes, unpack two big-endian u16 fields, ValueError if the magic
mismatches, ValueError if the version is not 0x0001, otherwise return the
version.  A file shorter than 4 bytes makes struct.unpack raise
struct.error. -/
def read_ffab_header (file : List Nat) : Except FfabError Nat :=
  let header := file.take 4
  if header.length < 4 then .error .structError
  else
    let magic := beNat (header.take 2)
    let version := beNat (header.drop 2)
    if magic ≠ FFAB_MAGIC then .error .invalidMagic
    else if version ≠ FFAB_VERSION_0x0001 then .error .unsupportedVersion
    else .ok version

/-- read_ffab_meta of ffab_decoder.py (lines 189-206): seek to 4, read 8
bytes, unpack four big-endian u16 fields (image count, width, height,
format code).  No validation happens here; fewer than 8 available bytes
make struct.unpack raise struct.error. -/
def read_ffab_meta (file : List Nat) : Except FfabError (Nat × Nat × Nat × Nat) :=
  let meta := (file.drop 4).take 8
  if meta.length < 8 then .error .structError
  else
    .ok (beNat (meta.take 2), beNat ((meta.drop 2).take 2),
         beNat ((meta.drop 4).take 2), beNat (meta.drop 6))

/-- The loop of read_ffab_index_table: read count records of 12 bytes
starting at pos, each unpacked as big-endian (u64 offset, u32 length);
struct.error when fewer than 12 bytes remain for a record.  No
cross-validation of the decoded values occurs. -/
def readIndexEntries (file : List Nat) (pos count : Nat) :
    Except FfabError (List (Nat × Nat)) :=
  match count with
  | 0 => .ok []
  | n + 1 =>
    let chunk := (file.drop pos).take 12
    if chunk.length < 12 then .error .structError
    else
      match readIndexEntries file (pos + 12) n with
      | .ok rest => .ok ((beNat (chunk.take 8), beNat (chunk.drop 8)) :: rest)
      | .error e => .error e

/-- read_ffab_index_table of ffab_decoder.py (lines 209-237): the index
records start right after the header and meta regions, at offset
4 + 8 = 12. -/
def read_ffab_index_table (file : List Nat) (image_count : Nat) :
    Except FfabError (List (Nat × Nat)) :=
  readIndexEntries file 12 image_count

/-- read_compressed_image_data of ffab_decoder.py (lines 240-255): seek to
the entry offset and read the declared number of bytes.  Python f.read
silently returns fewer bytes when the range extends past end of file. -/
def read_compressed_image_data (file : List Nat) (offset data_length : Nat) : List Nat :=
  (file.drop offset).take data_length

/-- The parsed container state decode_ffab_file holds after its header,
meta, format lookup and index reads. -/
structure Container where
  version : Nat
  image_count : Nat
  width : Nat
  height : Nat
  astc_format_code : Nat
  astc_format : String
  index : List (Nat × Nat)
deriving DecidableEq

/-- The meta stage of decode_ffab_file (ffab_decoder.py lines 276-281):
read the meta fields, then map the format code through
ASTC_CODE_TO_FORMAT, raising ValueError on an unknown code.  The count,
width and height fields are passed along unchecked. -/
def decode_meta_stage (file : List Nat) :
    Except FfabError (Nat × Nat × Nat × Nat × String) :=
  match read_ffab_meta file with
  | .error e => .error e
  | .ok (image_count, width, height, astc_format_code) =>
    match ASTC_CODE_TO_FORMAT astc_format_code with
    | none => .error (.unknownFormatCode astc_format_code)
    | some astc_format =>
      .ok (image_count, width, height, astc_format_code, astc_format)

/-- The parsing prefix of decode_ffab_file (ffab_decoder.py lines
258-290): header check, meta read, format-code lookup, then the index
read.  The source moves from the index read directly into the per-frame
loop; no validation pass over the entries exists. -/
def open_ffab (file : List Nat) : Except FfabError Container :=
  match read_ffab_header file with
  | .error e => .error e
  | .ok version =>
    match decode_meta_stage file with
    | .error e => .error e
    | .ok (image_count, width, height, astc_format_code, astc_format) =>
      match read_ffab_index_table file image_count with
      | .error e => .error e
      | .ok index =>
        .ok ⟨version, image_count, width, height, astc_format_code, astc_format, index⟩

/-- The per-frame loop of decode_ffab_file (ffab_decoder.py lines
293-307) up to the codec hand-off: for each index entry, in order, read
the declared byte range from the file. -/
def decode_ffab_frames (file : List Nat) : Except FfabError (List (List Nat)) :=
  match open_ffab file with
  | .error e => .error e
  | .ok c =>
    .ok (c.index.map (fun e => read_compressed_image_data file e.1 e.2))

/-- The byte stream decode_astc_data (ffab_decoder.py lines 107-157)
hands to the external codec for one frame: the regenerated 16-byte astc
header followed by the stored compressed bytes. -/
def decode_astc_input (width height : Nat) (astc_format : String)
    (compressed_data : List Nat) : List Nat :=
  generate_astc_header width height astc_format ++ compressed_data

end FfabDecoder

namespace FfabInfo

/-- read_ffab_header of ffab_info.py (lines 41-71): same reads and checks
as the decoder copy, returning both unpacked fields on success. -/
def read_ffab_header (file : List Nat) : Except FfabError (Nat × Nat) :=
  let header := file.take 4
  if header.length < 4 then .error .structError
  else
    let magic := beNat (header.take 2)
    let version := beNat (header.drop 2)
    if magic ≠ FFAB_MAGIC then .error .invalidMagic
    else if version ≠ FFAB_VERSION_0x0001 then .error .unsupportedVersion
    else .ok (magic, version)

end FfabInfo

/-- Writing with the primary writer and reopening with the reader: the
composite of create_ffab_file_v1 and the parsing prefix of
decode_ffab_file. -/
def write_then_open (blobs : List (List Nat)) (width height : Nat)
    (astc_format : String) : Except FfabError FfabDecoder.Container :=
  match FfabEncoder.create_ffab_file_v1 blobs width height astc_format with
  | .error e => .error e
  | .ok file => FfabDecoder.open_ffab file

/-- Writing with the primary writer, reopening, and retrieving every
frame's stored bytes through its index entry. -/
def write_then_frames (blobs : List (List Nat)) (width height : Nat)
    (astc_format : String) : Except FfabError (List (List Nat)) :=
  match FfabEncoder.create_ffab_file_v1 blobs width height astc_format with
  | .error e => .error e
  | .ok file => FfabDecoder.decode_ffab_frames file

/-- Writing with the primary writer and decoding the produced index
table, as the reader does. -/
def write_then_index (blobs : List (List Nat)) (width height : Nat)
    (astc_format : String) : Except FfabError (List (Nat × Nat)) :=
  match FfabEncoder.create_ffab_file_v1 blobs width height astc_format with
  | .error e => .error e
  | .ok file => FfabDecoder.read_ffab_index_table file blobs.length

/-- The index entries the writer loop assigns to a list of stored
payloads laid out from a start offset: each entry carries the running
offset and the payload length.  Proof-side description of the loop's
accumulator. -/
def entriesOf : List (List Nat) → Nat → List (Nat × Nat)
  | [], _ => []
  | d :: rest, cur => (cur, d.length) :: entriesOf rest (cur + d.length)

/-- A 24-byte file whose single index entry is corrupt: it declares
offset 0 (inside the header, far from the data start offset 24) with
length 4.  Header and meta are otherwise valid (count 1, width 1,
height 1, format code 1). -/
def corruptIndexFile : List Nat :=
  u16be FFAB_MAGIC ++ u16be 1 ++
  u16be 1 ++ u16be 1 ++ u16be 1 ++ u16be 1 ++
  u64be 0 ++ u32be 4

/-- A 26-byte file whose single index entry declares offset 24 and
length 10, while only 2 data bytes exist: the declared range extends
past end of file. -/
def truncatedFile : List Nat :=
  u16be FFAB_MAGIC ++ u16be 1 ++
  u16be 1 ++ u16be 1 ++ u16be 1 ++ u16be 1 ++
  u64be 24 ++ u32be 10 ++
  [0x01, 0x02]

/-- Fixed-width big-endian serialization always yields exactly the
declared number of bytes. -/
theorem beBytes_length (w n : Nat) : (beBytes w n).length = w := by
  induction w generalizing n with
  | zero => rfl
  | succ k ih => simp [beBytes, ih]

/-- Folding the big-endian interpretation from an arbitrary accumulator
shifts the accumulator past the list. -/
theorem beNat_foldl (l : List Nat) :
    ∀ acc : Nat, List.foldl (fun a b => a * 256 + b) acc l =
      acc * 256 ^ l.length + beNat l := by
  induction l with
  | nil => intro acc; simp [beNat]
  | cons b rest ih =>
    intro acc
    have hb : beNat (b :: rest) = List.foldl (fun a c => a * 256 + c) b rest := by
      simp [beNat]
    rw [List.foldl_cons, ih (acc * 256 + b), hb, ih b, List.length_cons]
    ring

/-- Big-endian interpretation of an appended pair of byte lists. -/
theorem beNat_append (a b : List Nat) :
    beNat (a ++ b) = beNat a * 256 ^ b.length + beNat b := by
  unfold beNat
  rw [List.foldl_append]
  exact beNat_foldl b _

/-- Big-endian round trip: interpreting the w serialized bytes of n
recovers n modulo 256 ^ w. -/
theorem beNat_beBytes (w n : Nat) : beNat (beBytes w n) = n % 256 ^ w := by
  induction w generalizing n with
  | zero => simp [beBytes, beNat, Nat.mod_one]
  | succ k ih =>
    have hsplit : beNat (beBytes k (n / 256) ++ [n % 256]) =
        beNat (beBytes k (n / 256)) * 256 + n % 256 := by
      rw [beNat_append]; simp [beNat]
    have hpow : (256 : Nat) ^ (k + 1) = 256 * 256 ^ k := by ring
    rw [beBytes, hsplit, ih, hpow, Nat.mod_mul]
    ring

/-- u16 round trip for in-range values. -/
theorem beNat_u16be (n : Nat) (h : n < 65536) : beNat (u16be n) = n := by
  rw [u16be, beNat_beBytes]
  exact Nat.mod_eq_of_lt h

/-- u32 round trip for in-range values. -/
theorem beNat_u32be (n : Nat) (h : n < 4294967296) : beNat (u32be n) = n := by
  rw [u32be, beNat_beBytes]
  exact Nat.mod_eq_of_lt h

/-- u64 round trip for in-range values. -/
theorem beNat_u64be (n : Nat) (h : n < 18446744073709551616) : beNat (u64be n) = n := by
  rw [u64be, beNat_beBytes]
  exact Nat.mod_eq_of_lt h

/-- Length of a u16 field. -/
theorem u16be_length (n : Nat) : (u16be n).length = 2 := beBytes_length 2 n

/-- Length of a u32 field. -/
theorem u32be_length (n : Nat) : (u32be n).length = 4 := beBytes_length 4 n

/-- Length of a u64 field. -/
theorem u64be_length (n : Nat) : (u64be n).length = 8 := beBytes_length 8 n

/-- Length of one serialized index record. -/
theorem entryBytes_length (e : Nat × Nat) : (FfabEncoder.entryBytes e).length = 12 := by
  simp [FfabEncoder.entryBytes, u64be_length, u32be_length]

/-- Taking past a known-length left part of an append. -/
theorem append_take_eq (a b : List Nat) (n : Nat) (h : a.length = n) :
    (a ++ b).take n = a :=
  List.take_left' h

/-- Dropping a known-length left part of an append. -/
theorem append_drop_eq (a b : List Nat) (n : Nat) (h : a.length = n) :
    (a ++ b).drop n = b :=
  List.drop_left' h

/-- A list sum is at most the length times a uniform bound on the
elements. -/
theorem sum_le_mul (l : List Nat) (m : Nat) (h : ∀ x ∈ l, x ≤ m) :
    l.sum ≤ l.length * m := by
  induction l with
  | nil => simp
  | cons x rest ih =>
    have hx : x ≤ m := h x (by simp)
    have hr : rest.sum ≤ rest.length * m :=
      ih (fun y hy => h y (by simp [hy]))
    simp only [List.sum_cons, List.length_cons]
    calc x + rest.sum ≤ m + rest.length * m := Nat.add_le_add hx hr
    _ = (rest.length + 1) * m := by ring

/-- Association-list lookup misses every key absent from the list. -/
theorem lookup_eq_none_of_not_mem {β : Type} (l : List (Nat × β)) (a : Nat)
    (h : ∀ p ∈ l, p.1 ≠ a) : l.lookup a = none := by
  induction l with
  | nil => rfl
  | cons p rest ih =>
    obtain ⟨k, v⟩ := p
    have hp : k ≠ a := h (k, v) (by simp)
    have hb : (a == k) = false :=
      beq_eq_false_iff_ne.mpr (fun hek => hp hek.symm)
    simp only [List.lookup, hb]
    exact ih (fun q hq => h q (List.mem_cons_of_mem _ hq))

/-- The writer loop assigns one entry per payload. -/
theorem entriesOf_length (datas : List (List Nat)) (cur : Nat) :
    (entriesOf datas cur).length = datas.length := by
  induction datas generalizing cur with
  | nil => rfl
  | cons d rest ih => simp [entriesOf, ih]

/-- Every length recorded by the writer loop is the length of one of the
payloads. -/
theorem entriesOf_mem_len (datas : List (List Nat)) (cur : Nat) :
    ∀ e ∈ entriesOf datas cur, e.2 ∈ datas.map List.length := by
  induction datas generalizing cur with
  | nil => intro e he; simp [entriesOf] at he
  | cons d rest ih =>
    intro e he
    simp only [entriesOf, List.mem_cons] at he
    rcases he with he | he
    · simp [he]
    · simpa using Or.inr (by simpa using ih (cur + d.length) e he)

/-- Every byte range the writer loop assigns lies between the start
offset and the start offset plus the total payload size. -/
theorem entriesOf_bounds (datas : List (List Nat)) (cur : Nat) :
    ∀ e ∈ entriesOf datas cur,
      cur ≤ e.1 ∧ e.1 + e.2 ≤ cur + (datas.map List.length).sum := by
  induction datas generalizing cur with
  | nil => intro e he; simp [entriesOf] at he
  | cons d rest ih =>
    intro e he
    simp only [entriesOf, List.mem_cons] at he
    rcases he with he | he
    · subst he
      simp only [List.map_cons, List.sum_cons]
      omega
    · have := ih (cur + d.length) e he
      simp only [List.map_cons, List.sum_cons]
      omega

/-- The first entry the writer loop assigns starts at the start
offset. -/
theorem entriesOf_head (d : List Nat) (rest : List (List Nat)) (cur : Nat) :
    ((entriesOf (d :: rest) cur).getD 0 (0, 0)).1 = cur := rfl

/-- Consecutive entries assigned by the writer loop are contiguous: each
offset is the previous offset plus the previous length. -/
theorem entriesOf_chain (datas : List (List Nat)) (cur i : Nat)
    (hi : i + 1 < (entriesOf datas cur).length) :
    ((entriesOf datas cur).getD (i + 1) (0, 0)).1 =
      ((entriesOf datas cur).getD i (0, 0)).1 +
      ((entriesOf datas cur).getD i (0, 0)).2 := by
  induction datas generalizing cur i with
  | nil => simp [entriesOf] at hi
  | cons d rest ih =>
    cases i with
    | zero =>
      cases rest with
      | nil => simp [entriesOf, entriesOf_length] at hi
      | cons d2 rest2 => simp [entriesOf]
    | succ j =>
      have hj : j + 1 < (entriesOf rest (cur + d.length)).length := by
        simp only [entriesOf, List.length_cons] at hi
        omega
      simpa [entriesOf] using ih (cur + d.length) j hj

/-- The check-strip-index loop of the primary writer, run on blobs that
all begin with the expected astc header: it succeeds, records exactly the
running-sum entries of the stripped payloads, and stores the stripped
payloads in order. -/
theorem processImages_ok (blobs : List (List Nat)) (hdr : List Nat) (cur : Nat)
    (hpre : ∀ b ∈ blobs, b.take 16 = hdr) :
    FfabEncoder.processImages blobs hdr cur =
      .ok (entriesOf (blobs.map (fun b => b.drop 16)) cur,
           blobs.map (fun b => b.drop 16)) := by
  induction blobs generalizing cur with
  | nil => rfl
  | cons b rest ih =>
    have hb : b.take 16 = hdr := hpre b (by simp)
    have hrest : ∀ c ∈ rest, c.take 16 = hdr :=
      fun c hc => hpre c (List.mem_cons_of_mem _ hc)
    simp only [FfabEncoder.processImages, hb, ih _ hrest,
      List.map_cons, entriesOf, if_true, eq_self_iff_true]

/-- The serialized index table of the writer-assigned entries occupies
exactly 12 bytes per payload. -/
theorem indexBytes_length (datas : List (List Nat)) (cur : Nat) :
    (((entriesOf datas cur).map FfabEncoder.entryBytes).flatten).length =
      12 * datas.length := by
  induction datas generalizing cur with
  | nil => rfl
  | cons d rest ih =>
    simp only [entriesOf, List.map_cons, List.flatten_cons, List.length_append,
      entryBytes_length, ih, List.length_cons]
    ring

/-- Reading back index records: when the bytes at the read position are
the serialized entries (followed by anything), and every recorded offset
and length is in range for its fixed-width field, the index read
succeeds and returns exactly the recorded entries. -/
theorem readIndexEntries_ok (entries : List (Nat × Nat)) (file rest : List Nat)
    (pos : Nat)
    (hfile : file.drop pos = (entries.map FfabEncoder.entryBytes).flatten ++ rest)
    (hbound : ∀ e ∈ entries, e.1 < 18446744073709551616 ∧ e.2 < 4294967296) :
    FfabDecoder.readIndexEntries file pos entries.length = .ok entries := by
  induction entries generalizing pos rest with
  | nil => rfl
  | cons e tailEntries ih =>
    obtain ⟨o, l⟩ := e
    have hb := hbound (o, l) (by simp)
    have hchunk : (file.drop pos).take 12 = FfabEncoder.entryBytes (o, l) := by
      rw [hfile, List.map_cons, List.flatten_cons, List.append_assoc]
      exact append_take_eq _ _ _ (entryBytes_length (o, l))
    have hlen : ((file.drop pos).take 12).length = 12 := by
      rw [hchunk]; exact entryBytes_length (o, l)
    have hdropnext : file.drop (pos + 12) =
        (tailEntries.map FfabEncoder.entryBytes).flatten ++ rest := by
      have h1 : file.drop (pos + 12) = (file.drop pos).drop 12 := by
        rw [List.drop_drop]
      rw [h1, hfile, List.map_cons, List.flatten_cons, List.append_assoc]
      exact append_drop_eq _ _ _ (entryBytes_length (o, l))
    have htake8 : ((file.drop pos).take 12).take 8 = u64be o := by
      rw [hchunk, FfabEncoder.entryBytes]
      exact append_take_eq _ _ _ (u64be_length o)
    have hdrop8 : ((file.drop pos).take 12).drop 8 = u32be l := by
      rw [hchunk, FfabEncoder.entryBytes]
      exact append_drop_eq _ _ _ (u64be_length o)
    have hrec := ih rest (pos + 12) hdropnext
      (fun q hq => hbound q (List.mem_cons_of_mem _ hq))
    simp only [List.length_cons, FfabDecoder.readIndexEntries, hlen,
      Nat.lt_irrefl, if_false, hrec, htake8, hdrop8,
      beNat_u64be o hb.1, beNat_u32be l hb.2]

/-- Retrieving each writer-assigned byte range from a file whose bytes
from the start offset onward are the concatenated payloads yields exactly
the payloads, in order. -/
theorem frames_of_entriesOf (datas : List (List Nat)) (cur : Nat)
    (file : List Nat) (hfile : file.drop cur = datas.flatten) :
    (entriesOf datas cur).map
        (fun e => FfabDecoder.read_compressed_image_data file e.1 e.2) =
      datas := by
  induction datas generalizing cur with
  | nil => rfl
  | cons d rest ih =>
    have hhead : FfabDecoder.read_compressed_image_data file cur d.length = d := by
      unfold FfabDecoder.read_compressed_image_data
      rw [hfile, List.flatten_cons]
      exact append_take_eq _ _ _ rfl
    have hnext : file.drop (cur + d.length) = rest.flatten := by
      have h1 : file.drop (cur + d.length) = (file.drop cur).drop d.length := by
        rw [List.drop_drop]
      rw [h1, hfile, List.flatten_cons]
      exact append_drop_eq _ _ _ rfl
    simp only [entriesOf, List.map_cons, hhead, ih _ hnext]

/-- Header decode on a file that starts with two packed in-range u16
fields: the outcome depends only on whether the two fields are the magic
constant and the supported version. -/
theorem read_header_structured (m v : Nat) (rest : List Nat)
    (hm : m < 65536) (hv : v < 65536) :
    FfabDecoder.read_ffab_header ((u16be m ++ u16be v) ++ rest) =
      (if m ≠ FFAB_MAGIC then .error .invalidMagic
       else if v ≠ FFAB_VERSION_0x0001 then .error .unsupportedVersion
       else .ok v) := by
  have h4 : (u16be m ++ u16be v).length = 4 := by
    simp [u16be_length]
  have htake : ((u16be m ++ u16be v) ++ rest).take 4 = u16be m ++ u16be v :=
    append_take_eq _ _ _ h4
  have ht2 : (u16be m ++ u16be v).take 2 = u16be m :=
    append_take_eq _ _ _ (u16be_length m)
  have hd2 : (u16be m ++ u16be v).drop 2 = u16be v :=
    append_drop_eq _ _ _ (u16be_length m)
  simp only [FfabDecoder.read_ffab_header, htake, h4, ht2, hd2,
    beNat_u16be m hm, beNat_u16be v hv, Nat.lt_irrefl, if_false]

/-- Meta decode on a file whose bytes 4 through 11 are four packed
in-range u16 fields: returns exactly those fields, with no
validation. -/
theorem read_meta_structured (hd : List Nat) (c w h code : Nat)
    (rest : List Nat) (hhd : hd.length = 4) (hc : c < 65536) (hw : w < 65536)
    (hh : h < 65536) (hcode : code < 65536) :
    FfabDecoder.read_ffab_meta
        (hd ++ ((u16be c ++ (u16be w ++ (u16be h ++ u16be code))) ++ rest)) =
      .ok (c, w, h, code) := by
  have hdrop4 : (hd ++ ((u16be c ++ (u16be w ++ (u16be h ++ u16be code))) ++ rest)).drop 4 =
      (u16be c ++ (u16be w ++ (u16be h ++ u16be code))) ++ rest :=
    append_drop_eq _ _ _ hhd
  have hm8 : (u16be c ++ (u16be w ++ (u16be h ++ u16be code))).length = 8 := by
    simp [u16be_length]
  have hmeta : ((u16be c ++ (u16be w ++ (u16be h ++ u16be code))) ++ rest).take 8 =
      u16be c ++ (u16be w ++ (u16be h ++ u16be code)) :=
    append_take_eq _ _ _ hm8
  have ht2 : (u16be c ++ (u16be w ++ (u16be h ++ u16be code))).take 2 = u16be c :=
    append_take_eq _ _ _ (u16be_length c)
  have hd2 : (u16be c ++ (u16be w ++ (u16be h ++ u16be code))).drop 2 =
      u16be w ++ (u16be h ++ u16be code) :=
    append_drop_eq _ _ _ (u16be_length c)
  have hd2t2 : (u16be w ++ (u16be h ++ u16be code)).take 2 = u16be w :=
    append_take_eq _ _ _ (u16be_length w)
  have hassoc4 : u16be c ++ (u16be w ++ (u16be h ++ u16be code)) =
      (u16be c ++ u16be w) ++ (u16be h ++ u16be code) := by
    simp [List.append_assoc]
  have hd4 : (u16be c ++ (u16be w ++ (u16be h ++ u16be code))).drop 4 =
      u16be h ++ u16be code := by
    rw [hassoc4]
    exact append_drop_eq _ _ _ (by simp [u16be_length])
  have hd4t2 : (u16be h ++ u16be code).take 2 = u16be h :=
    append_take_eq _ _ _ (u16be_length h)
  have hassoc6 : u16be c ++ (u16be w ++ (u16be h ++ u16be code)) =
      ((u16be c ++ u16be w) ++ u16be h) ++ u16be code := by
    simp [List.append_assoc]
  have hd6 : (u16be c ++ (u16be w ++ (u16be h ++ u16be code))).drop 6 = u16be code := by
    rw [hassoc6]
    exact append_drop_eq _ _ _ (by simp [u16be_length])
  simp only [FfabDecoder.read_ffab_meta, hdrop4, hmeta, hm8, ht2, hd2, hd2t2,
    hd4, hd4t2, hd6, beNat_u16be c hc, beNat_u16be w hw, beNat_u16be h hh,
    beNat_u16be code hcode, Nat.lt_irrefl, if_false]

/-- Per-entry facts of the format table: each declared pair survives the
writer's lower-cased name lookup, inverts through ASTC_CODE_TO_FORMAT,
and carries an in-range u16 code. -/
theorem format_table_facts :
    ∀ p ∈ ASTC_FORMAT_CODES,
      ASTC_FORMAT_CODES.lookup (pyLower p.1) = some p.2 ∧
      ASTC_CODE_TO_FORMAT p.2 = some p.1 ∧ p.2 < 65536 := by
  decide

/-- Master write/parse correspondence for the primary writer and the
reader: writing any non-empty list of codec blobs that begin with the
expected astc preamble, with in-range count, dimensions and payload
lengths, produces a file the reader parses back to the written count,
dimensions, format and running-sum index, and whose per-entry reads
return exactly the stored (stripped) payloads. -/
theorem write_parse (blobs : List (List Nat)) (w h code : Nat) (fmt : String)
    (hne : blobs ≠ [])
    (hmem : (fmt, code) ∈ ASTC_FORMAT_CODES)
    (hw : w < 65536) (hh : h < 65536) (hcount : blobs.length < 65536)
    (hlen : ∀ b ∈ blobs, (b.drop 16).length < 4294967296)
    (hpre : ∀ b ∈ blobs, b.take 16 = FfabEncoder.generate_astc_header w h fmt) :
    write_then_open blobs w h fmt =
      .ok ⟨FFAB_VERSION_0x0001, blobs.length, w, h, code, fmt,
        entriesOf (blobs.map (fun b => b.drop 16)) (4 + 8 + blobs.length * 12)⟩ ∧
    write_then_frames blobs w h fmt = .ok (blobs.map (fun b => b.drop 16)) ∧
    write_then_index blobs w h fmt =
      .ok (entriesOf (blobs.map (fun b => b.drop 16)) (4 + 8 + blobs.length * 12)) := by
  obtain ⟨hlookup, hcode, hcode16⟩ := format_table_facts (fmt, code) hmem
  have hproc := processImages_ok blobs (FfabEncoder.generate_astc_header w h fmt)
    (4 + 8 + blobs.length * 12) hpre
  have hcreate : FfabEncoder.create_ffab_file_v1 blobs w h fmt =
      .ok ((u16be FFAB_MAGIC ++ u16be FFAB_VERSION_0x0001) ++
        ((u16be blobs.length ++ (u16be w ++ (u16be h ++ u16be code))) ++
         (((entriesOf (blobs.map (fun b => b.drop 16)) (4 + 8 + blobs.length * 12)).map
             FfabEncoder.entryBytes).flatten ++
          (blobs.map (fun b => b.drop 16)).flatten))) := by
    simp only [FfabEncoder.create_ffab_file_v1, if_neg hne,
      FfabEncoder.get_astc_format_code, hlookup, hproc]
  have hheader : FfabDecoder.read_ffab_header
      ((u16be FFAB_MAGIC ++ u16be FFAB_VERSION_0x0001) ++
        ((u16be blobs.length ++ (u16be w ++ (u16be h ++ u16be code))) ++
         (((entriesOf (blobs.map (fun b => b.drop 16)) (4 + 8 + blobs.length * 12)).map
             FfabEncoder.entryBytes).flatten ++
          (blobs.map (fun b => b.drop 16)).flatten))) = .ok FFAB_VERSION_0x0001 := by
    rw [read_header_structured FFAB_MAGIC FFAB_VERSION_0x0001 _
      (by norm_num [FFAB_MAGIC]) (by norm_num [FFAB_VERSION_0x0001])]
    norm_num
  have hmeta : FfabDecoder.read_ffab_meta
      ((u16be FFAB_MAGIC ++ u16be FFAB_VERSION_0x0001) ++
        ((u16be blobs.length ++ (u16be w ++ (u16be h ++ u16be code))) ++
         (((entriesOf (blobs.map (fun b => b.drop 16)) (4 + 8 + blobs.length * 12)).map
             FfabEncoder.entryBytes).flatten ++
          (blobs.map (fun b => b.drop 16)).flatten))) =
      .ok (blobs.length, w, h, code) :=
    read_meta_structured _ _ _ _ _ _ (by simp [u16be_length]) hcount hw hh hcode16
  have hstage : FfabDecoder.decode_meta_stage
      ((u16be FFAB_MAGIC ++ u16be FFAB_VERSION_0x0001) ++
        ((u16be blobs.length ++ (u16be w ++ (u16be h ++ u16be code))) ++
         (((entriesOf (blobs.map (fun b => b.drop 16)) (4 + 8 + blobs.length * 12)).map
             FfabEncoder.entryBytes).flatten ++
          (blobs.map (fun b => b.drop 16)).flatten))) =
      .ok (blobs.length, w, h, code, fmt) := by
    simp only [FfabDecoder.decode_meta_stage, hmeta, hcode]
  have hbound : ∀ e ∈ entriesOf (blobs.map (fun b => b.drop 16)) (4 + 8 + blobs.length * 12),
      e.1 < 18446744073709551616 ∧ e.2 < 4294967296 := by
    intro e he
    have hlen2 : ∀ x ∈ (blobs.map (fun b => b.drop 16)).map List.length, x < 4294967296 := by
      intro x hx
      simp only [List.map_map, List.mem_map] at hx
      obtain ⟨b, hb, hbe⟩ := hx
      have := hlen b hb
      simp only [Function.comp] at hbe
      omega
    have he2 : e.2 < 4294967296 :=
      hlen2 e.2 (entriesOf_mem_len _ _ e he)
    refine ⟨?_, he2⟩
    have hb := (entriesOf_bounds _ _ e he).2
    have hsum : ((blobs.map (fun b => b.drop 16)).map List.length).sum ≤
        ((blobs.map (fun b => b.drop 16)).map List.length).length * 4294967295 :=
      sum_le_mul _ _ (fun x hx => by have := hlen2 x hx; omega)
    have hlenlen : ((blobs.map (fun b => b.drop 16)).map List.length).length =
        blobs.length := by simp
    rw [hlenlen] at hsum
    have hn4 : blobs.length * 4294967295 ≤ 65535 * 4294967295 :=
      Nat.mul_le_mul_right _ (by omega)
    have hn12 : blobs.length * 12 ≤ 65535 * 12 :=
      Nat.mul_le_mul_right _ (by omega)
    omega
  have hdrop12 : ((u16be FFAB_MAGIC ++ u16be FFAB_VERSION_0x0001) ++
        ((u16be blobs.length ++ (u16be w ++ (u16be h ++ u16be code))) ++
         (((entriesOf (blobs.map (fun b => b.drop 16)) (4 + 8 + blobs.length * 12)).map
             FfabEncoder.entryBytes).flatten ++
          (blobs.map (fun b => b.drop 16)).flatten))).drop 12 =
      ((entriesOf (blobs.map (fun b => b.drop 16)) (4 + 8 + blobs.length * 12)).map
          FfabEncoder.entryBytes).flatten ++
        (blobs.map (fun b => b.drop 16)).flatten := by
    have hshape : (u16be FFAB_MAGIC ++ u16be FFAB_VERSION_0x0001) ++
        ((u16be blobs.length ++ (u16be w ++ (u16be h ++ u16be code))) ++
         (((entriesOf (blobs.map (fun b => b.drop 16)) (4 + 8 + blobs.length * 12)).map
             FfabEncoder.entryBytes).flatten ++
          (blobs.map (fun b => b.drop 16)).flatten)) =
        ((u16be FFAB_MAGIC ++ u16be FFAB_VERSION_0x0001) ++
         (u16be blobs.length ++ (u16be w ++ (u16be h ++ u16be code)))) ++
        (((entriesOf (blobs.map (fun b => b.drop 16)) (4 + 8 + blobs.length * 12)).map
            FfabEncoder.entryBytes).flatten ++
         (blobs.map (fun b => b.drop 16)).flatten) := by
      simp [List.append_assoc]
    rw [hshape]
    exact append_drop_eq _ _ _ (by simp [u16be_length])
  have hentlen : (entriesOf (blobs.map (fun b => b.drop 16))
      (4 + 8 + blobs.length * 12)).length = blobs.length := by
    rw [entriesOf_length]; simp
  have hindex : FfabDecoder.read_ffab_index_table
      ((u16be FFAB_MAGIC ++ u16be FFAB_VERSION_0x0001) ++
        ((u16be blobs.length ++ (u16be w ++ (u16be h ++ u16be code))) ++
         (((entriesOf (blobs.map (fun b => b.drop 16)) (4 + 8 + blobs.length * 12)).map
             FfabEncoder.entryBytes).flatten ++
          (blobs.map (fun b => b.drop 16)).flatten))) blobs.length =
      .ok (entriesOf (blobs.map (fun b => b.drop 16)) (4 + 8 + blobs.length * 12)) := by
    have hro := readIndexEntries_ok _ _ _ 12 hdrop12 hbound
    rw [hentlen] at hro
    simp only [FfabDecoder.read_ffab_index_table]
    exact hro
  have hopen : FfabDecoder.open_ffab
      ((u16be FFAB_MAGIC ++ u16be FFAB_VERSION_0x0001) ++
        ((u16be blobs.length ++ (u16be w ++ (u16be h ++ u16be code))) ++
         (((entriesOf (blobs.map (fun b => b.drop 16)) (4 + 8 + blobs.length * 12)).map
             FfabEncoder.entryBytes).flatten ++
          (blobs.map (fun b => b.drop 16)).flatten))) =
      .ok ⟨FFAB_VERSION_0x0001, blobs.length, w, h, code, fmt,
        entriesOf (blobs.map (fun b => b.drop 16)) (4 + 8 + blobs.length * 12)⟩ := by
    simp only [FfabDecoder.open_ffab, hheader, hstage, hindex]
  have hdropds : ((u16be FFAB_MAGIC ++ u16be FFAB_VERSION_0x0001) ++
        ((u16be blobs.length ++ (u16be w ++ (u16be h ++ u16be code))) ++
         (((entriesOf (blobs.map (fun b => b.drop 16)) (4 + 8 + blobs.length * 12)).map
             FfabEncoder.entryBytes).flatten ++
          (blobs.map (fun b => b.drop 16)).flatten))).drop (4 + 8 + blobs.length * 12) =
      (blobs.map (fun b => b.drop 16)).flatten := by
    have hshape : (u16be FFAB_MAGIC ++ u16be FFAB_VERSION_0x0001) ++
        ((u16be blobs.length ++ (u16be w ++ (u16be h ++ u16be code))) ++
         (((entriesOf (blobs.map (fun b => b.drop 16)) (4 + 8 + blobs.length * 12)).map
             FfabEncoder.entryBytes).flatten ++
          (blobs.map (fun b => b.drop 16)).flatten)) =
        ((u16be FFAB_MAGIC ++ u16be FFAB_VERSION_0x0001) ++
         ((u16be blobs.length ++ (u16be w ++ (u16be h ++ u16be code))) ++
          ((entriesOf (blobs.map (fun b => b.drop 16)) (4 + 8 + blobs.length * 12)).map
             FfabEncoder.entryBytes).flatten)) ++
        (blobs.map (fun b => b.drop 16)).flatten := by
      simp [List.append_assoc]
    rw [hshape]
    refine append_drop_eq _ _ _ ?_
    have := indexBytes_length (blobs.map (fun b => b.drop 16)) (4 + 8 + blobs.length * 12)
    simp only [List.length_append, u16be_length, this, List.length_map]
    ring
  have hframes : FfabDecoder.decode_ffab_frames
      ((u16be FFAB_MAGIC ++ u16be FFAB_VERSION_0x0001) ++
        ((u16be blobs.length ++ (u16be w ++ (u16be h ++ u16be code))) ++
         (((entriesOf (blobs.map (fun b => b.drop 16)) (4 + 8 + blobs.length * 12)).map
             FfabEncoder.entryBytes).flatten ++
          (blobs.map (fun b => b.drop 16)).flatten))) =
      .ok (blobs.map (fun b => b.drop 16)) := by
    simp only [FfabDecoder.decode_ffab_frames, hopen]
    rw [frames_of_entriesOf _ _ _ hdropds]
  refine ⟨?_, ?_, ?_⟩
  · simp only [write_then_open, hcreate, hopen]
  · simp only [write_then_frames, hcreate, hframes]
  · simp only [write_then_index, hcreate, hindex]

/-- C1: Round-trip: for every non-empty list of frame payloads sharing
the same width and height (their codec preambles all match the header
derived from the shared dimensions) and a valid format code, with the
count, dimensions and stored lengths in range for their fixed-width
fields, writing a container and reopening it yields an image count equal
to the number of payloads, and retrieving each frame through its index
entry returns exactly the corresponding stored payload (the blob with its
16-byte preamble stripped), in order. -/
theorem c1_round_trip (blobs : List (List Nat)) (w h code : Nat) (fmt : String)
    (hne : blobs ≠ [])
    (hmem : (fmt, code) ∈ ASTC_FORMAT_CODES)
    (hw : w < 65536) (hh : h < 65536) (hcount : blobs.length < 65536)
    (hlen : ∀ b ∈ blobs, (b.drop 16).length < 4294967296)
    (hpre : ∀ b ∈ blobs, b.take 16 = FfabEncoder.generate_astc_header w h fmt) :
    (write_then_open blobs w h fmt).map FfabDecoder.Container.image_count =
      .ok blobs.length ∧
    write_then_frames blobs w h fmt = .ok (blobs.map (fun b => b.drop 16)) := by
  obtain ⟨h1, h2, _⟩ := write_parse blobs w h code fmt hne hmem hw hh hcount hlen hpre
  exact ⟨by rw [h1]; rfl, h2⟩

/-- Witness for C1 at a concrete two-frame input. -/
theorem c1_round_trip_witness :
    (write_then_open [FfabEncoder.generate_astc_header 1 1 "4x4" ++ [0xAA],
        FfabEncoder.generate_astc_header 1 1 "4x4" ++ [0xBB, 0xCC]] 1 1 "4x4").map
      FfabDecoder.Container.image_count = .ok 2 ∧
    write_then_frames [FfabEncoder.generate_astc_header 1 1 "4x4" ++ [0xAA],
        FfabEncoder.generate_astc_header 1 1 "4x4" ++ [0xBB, 0xCC]] 1 1 "4x4" =
      .ok [[0xAA], [0xBB, 0xCC]] := by
  have h := c1_round_trip [FfabEncoder.generate_astc_header 1 1 "4x4" ++ [0xAA],
      FfabEncoder.generate_astc_header 1 1 "4x4" ++ [0xBB, 0xCC]] 1 1 1 "4x4"
    (by decide) (by decide) (by decide) (by decide) (by decide) (by decide) (by decide)
  exact ⟨h.1, by rw [h.2]; decide⟩

/-- C2: Offset determinism: for every container the primary writer
produces from n payloads, the index the reader decodes back has entry 0
at offset exactly 4 + 8 + 12 * n, and every following entry starts
exactly where the previous entry ends (previous offset plus previous
length), leaving no gaps and no overlaps between consecutive frames. -/
theorem c2_offset_determinism (blobs : List (List Nat)) (w h code : Nat)
    (fmt : String) (entries : List (Nat × Nat))
    (hne : blobs ≠ [])
    (hmem : (fmt, code) ∈ ASTC_FORMAT_CODES)
    (hw : w < 65536) (hh : h < 65536) (hcount : blobs.length < 65536)
    (hlen : ∀ b ∈ blobs, (b.drop 16).length < 4294967296)
    (hpre : ∀ b ∈ blobs, b.take 16 = FfabEncoder.generate_astc_header w h fmt)
    (hidx : write_then_index blobs w h fmt = .ok entries) :
    entries.length = blobs.length ∧
    (entries.getD 0 (0, 0)).1 = 4 + 8 + 12 * blobs.length ∧
    ∀ i, i + 1 < entries.length →
      (entries.getD (i + 1) (0, 0)).1 =
        (entries.getD i (0, 0)).1 + (entries.getD i (0, 0)).2 := by
  obtain ⟨_, _, h3⟩ := write_parse blobs w h code fmt hne hmem hw hh hcount hlen hpre
  rw [h3] at hidx
  injection hidx with heq
  subst heq
  refine ⟨by rw [entriesOf_length]; simp, ?_, ?_⟩
  · cases blobs with
    | nil => exact absurd rfl hne
    | cons b rest =>
      simp only [List.map_cons, entriesOf_head, List.length_cons]
      ring
  · intro i hi
    exact entriesOf_chain _ _ i hi

/-- Witness for C2 at a concrete two-frame input: entries (36, 1) and
(37, 2). -/
theorem c2_offset_determinism_witness :
    ([((36 : Nat), (1 : Nat)), (37, 2)].length =
      [FfabEncoder.generate_astc_header 1 1 "4x4" ++ [0xAA],
       FfabEncoder.generate_astc_header 1 1 "4x4" ++ [0xBB, 0xCC]].length) ∧
    (([((36 : Nat), (1 : Nat)), (37, 2)].getD 0 (0, 0)).1 =
      4 + 8 + 12 * [FfabEncoder.generate_astc_header 1 1 "4x4" ++ [0xAA],
        FfabEncoder.generate_astc_header 1 1 "4x4" ++ [0xBB, 0xCC]].length) ∧
    (∀ i, i + 1 < [((36 : Nat), (1 : Nat)), (37, 2)].length →
      ([((36 : Nat), (1 : Nat)), (37, 2)].getD (i + 1) (0, 0)).1 =
        ([((36 : Nat), (1 : Nat)), (37, 2)].getD i (0, 0)).1 +
        ([((36 : Nat), (1 : Nat)), (37, 2)].getD i (0, 0)).2) :=
  c2_offset_determinism
    [FfabEncoder.generate_astc_header 1 1 "4x4" ++ [0xAA],
     FfabEncoder.generate_astc_header 1 1 "4x4" ++ [0xBB, 0xCC]] 1 1 1 "4x4"
    [(36, 1), (37, 2)]
    (by decide) (by decide) (by decide) (by decide) (by decide) (by decide)
    (by decide) (by decide)

/-- C5 (amended): the primary writer checks each codec blob's first 16
bytes against the preamble derived from the shared width, height and
block-tile size, strips them, and stores only the remainder; the reader
regenerates an equivalent preamble from the MetaBlock fields and prepends
it, so the byte stream handed back to the codec for each frame is exactly
the original codec output.  (The tools writer variant stores blobs
unstripped; see the counterexample.) -/
theorem c5_preamble_strip_regenerate (blobs : List (List Nat)) (w h code : Nat)
    (fmt : String)
    (hne : blobs ≠ [])
    (hmem : (fmt, code) ∈ ASTC_FORMAT_CODES)
    (hw : w < 65536) (hh : h < 65536) (hcount : blobs.length < 65536)
    (hlen : ∀ b ∈ blobs, (b.drop 16).length < 4294967296)
    (hpre : ∀ b ∈ blobs, b.take 16 = FfabEncoder.generate_astc_header w h fmt) :
    (write_then_frames blobs w h fmt).map
        (fun frames => frames.map (FfabDecoder.decode_astc_input w h fmt)) =
      .ok blobs := by
  obtain ⟨_, h2, _⟩ := write_parse blobs w h code fmt hne hmem hw hh hcount hlen hpre
  rw [h2]
  have hmap : (blobs.map (fun b => b.drop 16)).map
      (FfabDecoder.decode_astc_input w h fmt) = blobs := by
    rw [List.map_map]
    have hid : ∀ b ∈ blobs,
        (FfabDecoder.decode_astc_input w h fmt ∘ fun b => b.drop 16) b = b := by
      intro b hb
      show FfabDecoder.generate_astc_header w h fmt ++ b.drop 16 = b
      have hgen : FfabDecoder.generate_astc_header w h fmt =
          FfabEncoder.generate_astc_header w h fmt := rfl
      rw [hgen, ← hpre b hb, List.take_append_drop]
    calc blobs.map (FfabDecoder.decode_astc_input w h fmt ∘ fun b => b.drop 16)
        = blobs.map id := List.map_congr_left hid
      _ = blobs := List.map_id blobs
  show Except.map _ (Except.ok (blobs.map (fun b => b.drop 16))) = _
  rw [Except.map, hmap]

/-- Witness for C5 at a concrete two-frame input. -/
theorem c5_preamble_strip_regenerate_witness :
    (write_then_frames [FfabEncoder.generate_astc_header 1 1 "4x4" ++ [0xAA],
        FfabEncoder.generate_astc_header 1 1 "4x4" ++ [0xBB, 0xCC]] 1 1 "4x4").map
        (fun frames => frames.map (FfabDecoder.decode_astc_input 1 1 "4x4")) =
      .ok [FfabEncoder.generate_astc_header 1 1 "4x4" ++ [0xAA],
           FfabEncoder.generate_astc_header 1 1 "4x4" ++ [0xBB, 0xCC]] :=
  c5_preamble_strip_regenerate
    [FfabEncoder.generate_astc_header 1 1 "4x4" ++ [0xAA],
     FfabEncoder.generate_astc_header 1 1 "4x4" ++ [0xBB, 0xCC]] 1 1 1 "4x4"
    (by decide) (by decide) (by decide) (by decide) (by decide) (by decide) (by decide)

/-- C5 counterexample: the tools writer variant stores the whole codec
blob, preamble included — the stored payload of a one-frame container is
the full blob, which differs from the stripped payload the claim
describes. -/
theorem c5_counterexample :
    (FfabToolsEncoder.create_ffab_file_v1
        [FfabEncoder.generate_astc_header 1 1 "4x4" ++ [0x07]] 1 1 "4x4").map
      (fun f => f.drop 24) =
      .ok (FfabEncoder.generate_astc_header 1 1 "4x4" ++ [0x07]) ∧
    FfabEncoder.generate_astc_header 1 1 "4x4" ++ [0x07] ≠
      (FfabEncoder.generate_astc_header 1 1 "4x4" ++ [0x07]).drop 16 := by
  decide

/-- C10: the encoder's and the decoder's astc preamble generators are
extensionally equal: for every width, height and block-tile format
string in the enumeration, both produce the same byte sequence, of
length 16. -/
theorem c10_generate_astc_header_eq (w h : Nat) (fmt : String)
    (hmem : fmt ∈ ASTC_FORMAT_CODES.map Prod.fst) :
    FfabEncoder.generate_astc_header w h fmt =
      FfabDecoder.generate_astc_header w h fmt ∧
    (FfabEncoder.generate_astc_header w h fmt).length = 16 := by
  refine ⟨rfl, ?_⟩
  fin_cases hmem <;> rfl

/-- Witness for C10 at width 3, height 5, format 6x6. -/
theorem c10_generate_astc_header_eq_witness :
    FfabEncoder.generate_astc_header 3 5 "6x6" =
      FfabDecoder.generate_astc_header 3 5 "6x6" ∧
    (FfabEncoder.generate_astc_header 3 5 "6x6").length = 16 :=
  c10_generate_astc_header_eq 3 5 "6x6" (by decide)

/-- The index read succeeds on any file that simply has enough bytes for
the requested number of 12-byte records, whatever those bytes are. -/
theorem readIndexEntries_ok_exists (file : List Nat) (count : Nat) :
    ∀ pos, pos + 12 * count ≤ file.length →
      ∃ es, FfabDecoder.readIndexEntries file pos count = .ok es := by
  induction count with
  | zero => intro pos _; exact ⟨[], rfl⟩
  | succ n ih =>
    intro pos hsz
    have hchunk : ((file.drop pos).take 12).length = 12 := by
      rw [List.length_take, List.length_drop]
      omega
    obtain ⟨es, hes⟩ := ih (pos + 12) (by omega)
    refine ⟨(beNat ((file.drop pos).take 12 |>.take 8),
             beNat ((file.drop pos).take 12 |>.drop 8)) :: es, ?_⟩
    simp only [FfabDecoder.readIndexEntries, hchunk, Nat.lt_irrefl, if_false, hes]

/-- C3 (amended): the reader performs no validation pass over the index:
whenever the header and meta decode succeed, the format code is known,
and the file merely has enough bytes for the declared number of 12-byte
index records, opening succeeds and every frame's bytes are retrieved —
regardless of whether the entries are contiguous, in order, or within
the file's bounds.  No CorruptIndex failure exists in the reader. -/
theorem c3_no_validation_pass (file : List Nat)
    (version image_count width height code : Nat) (fmt : String)
    (hhdr : FfabDecoder.read_ffab_header file = .ok version)
    (hmeta : FfabDecoder.read_ffab_meta file = .ok (image_count, width, height, code))
    (hcode : ASTC_CODE_TO_FORMAT code = some fmt)
    (hsize : 12 + 12 * image_count ≤ file.length) :
    exceptIsOk (FfabDecoder.open_ffab file) = true ∧
    exceptIsOk (FfabDecoder.decode_ffab_frames file) = true := by
  obtain ⟨es, hes⟩ := readIndexEntries_ok_exists file image_count 12 hsize
  have hstage : FfabDecoder.decode_meta_stage file =
      .ok (image_count, width, height, code, fmt) := by
    simp only [FfabDecoder.decode_meta_stage, hmeta, hcode]
  have hopen : FfabDecoder.open_ffab file =
      .ok ⟨version, image_count, width, height, code, fmt, es⟩ := by
    simp only [FfabDecoder.open_ffab, hhdr, hstage,
      FfabDecoder.read_ffab_index_table, hes]
  constructor
  · rw [hopen]; rfl
  · simp only [FfabDecoder.decode_ffab_frames, hopen]; rfl

/-- Witness for C3 at the corrupt-index file: header, meta and format
code are fine, the single entry is wildly non-contiguous, and the reader
still opens the file and retrieves the frame. -/
theorem c3_no_validation_pass_witness :
    exceptIsOk (FfabDecoder.open_ffab corruptIndexFile) = true ∧
    exceptIsOk (FfabDecoder.decode_ffab_frames corruptIndexFile) = true :=
  c3_no_validation_pass corruptIndexFile 1 1 1 1 1 "4x4"
    (by decide) (by decide) (by decide) (by decide)

/-- C3 counterexample: a file whose only index entry declares offset 0 —
violating entry offset 0 = data start offset 24 — is decoded without any
CorruptIndex failure: the reader returns the four header bytes as the
frame's data. -/
theorem c3_counterexample :
    FfabDecoder.read_ffab_index_table corruptIndexFile 1 = .ok [(0, 4)] ∧
    (0 : Nat) ≠ 4 + 8 + 12 * 1 ∧
    FfabDecoder.decode_ffab_frames corruptIndexFile =
      .ok [[0xFF, 0xAB, 0x00, 0x01]] := by
  decide

/-- C4 (amended): the reader does not detect truncation when retrieving
a frame: read_compressed_image_data returns however many bytes are
available in the declared range — min of the declared length and the
bytes remaining past the offset — rather than failing when the range
extends past end of file. -/
theorem c4_silent_short_read (file : List Nat) (offset data_length : Nat) :
    (FfabDecoder.read_compressed_image_data file offset data_length).length =
      min data_length (file.length - offset) := by
  simp [FfabDecoder.read_compressed_image_data, List.length_take, List.length_drop]

/-- C4 counterexample: a file whose last (single) frame declares length
10 with only 2 bytes present past its offset decodes without any
TruncatedFile or CorruptIndex failure, silently returning the 2
available bytes. -/
theorem c4_counterexample :
    truncatedFile.length < 24 + 10 ∧
    FfabDecoder.decode_ffab_frames truncatedFile = .ok [[0x01, 0x02]] ∧
    ([0x01, 0x02] : List Nat).length < 10 := by
  decide

/-- C6: Header rejection: on any file with at least 4 bytes, header
decode reads the first 4 bytes as two big-endian u16 fields and fails
with InvalidMagic exactly when the magic field differs from 0xFFAB,
fails with UnsupportedVersion exactly when the magic matches but the
version differs from 0x0001, and otherwise succeeds, with no other
validation — in both the decoder's and the inspector's copies. -/
theorem c6_header_rejection (file : List Nat) (h4 : 4 ≤ file.length) :
    (FfabDecoder.read_ffab_header file =
      if beNat (file.take 2) ≠ FFAB_MAGIC then .error .invalidMagic
      else if beNat ((file.drop 2).take 2) ≠ FFAB_VERSION_0x0001 then
        .error .unsupportedVersion
      else .ok (beNat ((file.drop 2).take 2))) ∧
    (FfabInfo.read_ffab_header file =
      if beNat (file.take 2) ≠ FFAB_MAGIC then .error .invalidMagic
      else if beNat ((file.drop 2).take 2) ≠ FFAB_VERSION_0x0001 then
        .error .unsupportedVersion
      else .ok (beNat (file.take 2), beNat ((file.drop 2).take 2))) := by
  have hlen : (file.take 4).length = 4 := by
    rw [List.length_take]; omega
  have ht2 : (file.take 4).take 2 = file.take 2 := by
    rw [List.take_take]; norm_num
  have hd2 : (file.take 4).drop 2 = (file.drop 2).take 2 := by
    rw [List.drop_take]
  constructor
  · simp only [FfabDecoder.read_ffab_header, hlen, ht2, hd2,
      Nat.lt_irrefl, if_false]
  · simp only [FfabInfo.read_ffab_header, hlen, ht2, hd2,
      Nat.lt_irrefl, if_false]

/-- Witness for C6 at the 4-byte file 0xFF 0xAB 0x00 0x01. -/
theorem c6_header_rejection_witness :
    (FfabDecoder.read_ffab_header [0xFF, 0xAB, 0x00, 0x01] =
      if beNat (([0xFF, 0xAB, 0x00, 0x01] : List Nat).take 2) ≠ FFAB_MAGIC then
        .error .invalidMagic
      else if beNat ((([0xFF, 0xAB, 0x00, 0x01] : List Nat).drop 2).take 2) ≠
          FFAB_VERSION_0x0001 then
        .error .unsupportedVersion
      else .ok (beNat ((([0xFF, 0xAB, 0x00, 0x01] : List Nat).drop 2).take 2))) ∧
    (FfabInfo.read_ffab_header [0xFF, 0xAB, 0x00, 0x01] =
      if beNat (([0xFF, 0xAB, 0x00, 0x01] : List Nat).take 2) ≠ FFAB_MAGIC then
        .error .invalidMagic
      else if beNat ((([0xFF, 0xAB, 0x00, 0x01] : List Nat).drop 2).take 2) ≠
          FFAB_VERSION_0x0001 then
        .error .unsupportedVersion
      else .ok (beNat (([0xFF, 0xAB, 0x00, 0x01] : List Nat).take 2),
                beNat ((([0xFF, 0xAB, 0x00, 0x01] : List Nat).drop 2).take 2))) :=
  c6_header_rejection [0xFF, 0xAB, 0x00, 0x01] (by decide)

/-- C7: on any file with at least 12 bytes, the meta decode returns the
four big-endian u16 fields read at offsets 4, 6, 8 and 10 exactly as
stored, with no range validation of count, width or height; the decode
path then fails with UnknownFormatCode exactly when the format code is
outside the known enumeration, and passes the fields through unchanged
when it is known. -/
theorem c7_unknown_format_code (file : List Nat) (h12 : 12 ≤ file.length) :
    (FfabDecoder.read_ffab_meta file =
      .ok (beNat ((file.drop 4).take 2), beNat ((file.drop 6).take 2),
           beNat ((file.drop 8).take 2), beNat ((file.drop 10).take 2))) ∧
    (ASTC_CODE_TO_FORMAT (beNat ((file.drop 10).take 2)) = none →
      FfabDecoder.decode_meta_stage file =
        .error (.unknownFormatCode (beNat ((file.drop 10).take 2)))) ∧
    (∀ fmt, ASTC_CODE_TO_FORMAT (beNat ((file.drop 10).take 2)) = some fmt →
      FfabDecoder.decode_meta_stage file =
        .ok (beNat ((file.drop 4).take 2), beNat ((file.drop 6).take 2),
             beNat ((file.drop 8).take 2), beNat ((file.drop 10).take 2), fmt)) := by
  have hlen : ((file.drop 4).take 8).length = 8 := by
    rw [List.length_take, List.length_drop]; omega
  have ht2 : ((file.drop 4).take 8).take 2 = (file.drop 4).take 2 := by
    rw [List.take_take]; norm_num
  have hd2 : (((file.drop 4).take 8).drop 2).take 2 = (file.drop 6).take 2 := by
    rw [List.drop_take, List.drop_drop, List.take_take]; norm_num
  have hd4 : (((file.drop 4).take 8).drop 4).take 2 = (file.drop 8).take 2 := by
    rw [List.drop_take, List.drop_drop, List.take_take]; norm_num
  have hd6 : ((file.drop 4).take 8).drop 6 = (file.drop 10).take 2 := by
    rw [List.drop_take, List.drop_drop]
  have hmeta : FfabDecoder.read_ffab_meta file =
      .ok (beNat ((file.drop 4).take 2), beNat ((file.drop 6).take 2),
           beNat ((file.drop 8).take 2), beNat ((file.drop 10).take 2)) := by
    simp only [FfabDecoder.read_ffab_meta, hlen, ht2, hd2, hd4, hd6,
      Nat.lt_irrefl, if_false]
  refine ⟨hmeta, ?_, ?_⟩
  · intro hnone
    simp only [FfabDecoder.decode_meta_stage, hmeta, hnone]
  · intro fmt hsome
    simp only [FfabDecoder.decode_meta_stage, hmeta, hsome]

/-- Witness for C7 at a 12-byte file carrying the unknown format code
0x0099 (and count 0, which the meta decode accepts as-is). -/
theorem c7_unknown_format_code_witness :
    (FfabDecoder.read_ffab_meta [0xFF, 0xAB, 0x00, 0x01, 0, 0, 0, 2, 0, 3, 0, 0x99] =
      .ok (beNat ((([0xFF, 0xAB, 0x00, 0x01, 0, 0, 0, 2, 0, 3, 0, 0x99] : List Nat).drop 4).take 2),
           beNat ((([0xFF, 0xAB, 0x00, 0x01, 0, 0, 0, 2, 0, 3, 0, 0x99] : List Nat).drop 6).take 2),
           beNat ((([0xFF, 0xAB, 0x00, 0x01, 0, 0, 0, 2, 0, 3, 0, 0x99] : List Nat).drop 8).take 2),
           beNat ((([0xFF, 0xAB, 0x00, 0x01, 0, 0, 0, 2, 0, 3, 0, 0x99] : List Nat).drop 10).take 2))) ∧
    (ASTC_CODE_TO_FORMAT
        (beNat ((([0xFF, 0xAB, 0x00, 0x01, 0, 0, 0, 2, 0, 3, 0, 0x99] : List Nat).drop 10).take 2)) = none →
      FfabDecoder.decode_meta_stage [0xFF, 0xAB, 0x00, 0x01, 0, 0, 0, 2, 0, 3, 0, 0x99] =
        .error (.unknownFormatCode
          (beNat ((([0xFF, 0xAB, 0x00, 0x01, 0, 0, 0, 2, 0, 3, 0, 0x99] : List Nat).drop 10).take 2)))) ∧
    (∀ fmt, ASTC_CODE_TO_FORMAT
        (beNat ((([0xFF, 0xAB, 0x00, 0x01, 0, 0, 0, 2, 0, 3, 0, 0x99] : List Nat).drop 10).take 2)) = some fmt →
      FfabDecoder.decode_meta_stage [0xFF, 0xAB, 0x00, 0x01, 0, 0, 0, 2, 0, 3, 0, 0x99] =
        .ok (beNat ((([0xFF, 0xAB, 0x00, 0x01, 0, 0, 0, 2, 0, 3, 0, 0x99] : List Nat).drop 4).take 2),
             beNat ((([0xFF, 0xAB, 0x00, 0x01, 0, 0, 0, 2, 0, 3, 0, 0x99] : List Nat).drop 6).take 2),
             beNat ((([0xFF, 0xAB, 0x00, 0x01, 0, 0, 0, 2, 0, 3, 0, 0x99] : List Nat).drop 8).take 2),
             beNat ((([0xFF, 0xAB, 0x00, 0x01, 0, 0, 0, 2, 0, 3, 0, 0x99] : List Nat).drop 10).take 2), fmt)) :=
  c7_unknown_format_code [0xFF, 0xAB, 0x00, 0x01, 0, 0, 0, 2, 0, 3, 0, 0x99] (by decide)

/-- C8 (amended): the primary writer fails with the empty-list ValueError
when given zero frames and with the unknown-format ValueError when the
format name is outside the supported enumeration; it performs no
dimension validation, so non-positive width or height are not
rejected (see the counterexample). -/
theorem c8_writer_preconditions (blobs : List (List Nat)) (w h : Nat) (fmt : String) :
    FfabEncoder.create_ffab_file_v1 [] w h fmt = .error .emptyImageList ∧
    (blobs ≠ [] → ASTC_FORMAT_CODES.lookup (pyLower fmt) = none →
      FfabEncoder.create_ffab_file_v1 blobs w h fmt = .error .invalidAstcFormat) := by
  constructor
  · rfl
  · intro hne hnone
    simp only [FfabEncoder.create_ffab_file_v1, if_neg hne,
      FfabEncoder.get_astc_format_code, hnone]

/-- Witness for C8: zero frames fail, and a 7x7 format (outside the
enumeration) fails. -/
theorem c8_writer_preconditions_witness :
    FfabEncoder.create_ffab_file_v1 [] 1 1 "6x6" = .error .emptyImageList ∧
    FfabEncoder.create_ffab_file_v1 [[0x01]] 1 1 "7x7" = .error .invalidAstcFormat :=
  ⟨(c8_writer_preconditions [[0x01]] 1 1 "6x6").1,
   (c8_writer_preconditions [[0x01]] 1 1 "7x7").2 (by decide) (by decide)⟩

/-- C8 counterexample: the writer accepts width 0 and height 0 (clearly
non-positive) and produces a container, so no InvalidDimensions
rejection exists. -/
theorem c8_counterexample :
    exceptIsOk (FfabEncoder.create_ffab_file_v1
      [FfabEncoder.generate_astc_header 0 0 "4x4"] 0 0 "4x4") = true := by
  decide

/-- C9: Format-code closure: the 14-entry table is a bijection — codes
and names are each pairwise distinct, the anchor pairs 0x0001-4x4,
0x0005-6x6 and 0x000E-12x12 hold, every declared pair round-trips
through both directions of the mapping, and every code outside the
enumeration is rejected by the reverse lookup. -/
theorem c9_format_code_closure :
    (ASTC_FORMAT_CODES.length = 14 ∧
     (ASTC_FORMAT_CODES.map Prod.snd).Nodup ∧
     (ASTC_FORMAT_CODES.map Prod.fst).Nodup ∧
     ASTC_CODE_TO_FORMAT 0x0001 = some "4x4" ∧
     ASTC_CODE_TO_FORMAT 0x0005 = some "6x6" ∧
     ASTC_CODE_TO_FORMAT 0x000E = some "12x12") ∧
    (∀ p ∈ ASTC_FORMAT_CODES,
      ASTC_CODE_TO_FORMAT p.2 = some p.1 ∧
      FfabEncoder.get_astc_format_code p.1 = .ok p.2) ∧
    (∀ code : Nat, code ∉ ASTC_FORMAT_CODES.map Prod.snd →
      ASTC_CODE_TO_FORMAT code = none) := by
  refine ⟨by decide, by decide, ?_⟩
  intro code hcode
  unfold ASTC_CODE_TO_FORMAT
  apply lookup_eq_none_of_not_mem
  intro p hp
  simp only [List.mem_map] at hp
  obtain ⟨q, hq, hqp⟩ := hp
  intro hpc
  apply hcode
  simp only [List.mem_map]
  refine ⟨q, hq, ?_⟩
  rw [← hqp] at hpc
  exact hpc

/-- Witness for C9: the 6x6 pair round-trips both ways and the
out-of-enumeration code 0x0099 is rejected. -/
theorem c9_format_code_closure_witness :
    (ASTC_CODE_TO_FORMAT 0x0005 = some "6x6" ∧
     FfabEncoder.get_astc_format_code "6x6" = .ok 0x0005) ∧
    ASTC_CODE_TO_FORMAT 0x0099 = none :=
  ⟨c9_format_code_closure.2.1 ("6x6", 0x0005) (by decide),
   c9_format_code_closure.2.2 0x0099 (by decide)⟩
